import Mathlib

/-!
Verification of the neolink motion-event pipeline and related request wrappers.

The definitions below are a shallow embedding of:
  - src/crates/core/src/bc_protocol/motion.rs
  - src/crates/core/src/bc_protocol/floodlight_status.rs
  - src/src/rtsp/gst/maybe_app_src.rs

Conventions of the embedding:
  - `std::time::Instant` values become `Nat` (a monotonic clock tick count);
    `Duration` becomes `Nat`.  `Instant - Instant` (which is non-negative in
    Rust) becomes truncated `Nat` subtraction.
  - `Result<T>` becomes `Except E T` with an explicit error enumeration.
  - the bounded tokio mpsc channel between listener task and `MotionData`
    becomes an explicit buffer `List` together with a `closed` flag
    (`closed = true` models a dropped sender).
  - `async` suspension points are modelled by a finite trace of the values the
    suspension would produce: `rx.recv()` inside `next_motion` takes the next
    pipeline message (or `none` when the channel closed), and the debounce
    loops of `await_stop` / `await_start` walk an explicit time-stamped event
    trace, one received message per `next_motion` call.
-/

namespace Neolink

/-- MotionStatus from motion.rs lines 8-16: Start / Stop / NoChange, each
carrying the `Instant` at which it was produced. -/
inductive MotionStatus : Type where
  | start (t : Nat)
  | stop (t : Nat)
  | noChange (t : Nat)
deriving DecidableEq, Repr

/-- Timestamp carried by a status value. -/
def tsOf : MotionStatus → Nat
  | MotionStatus.start t => t
  | MotionStatus.stop t => t
  | MotionStatus.noChange t => t

/-- A pipeline message as stored in the bounded channel:
`Result<MotionStatus>` in the Rust source.  The transport error payload is
irrelevant to the control flow and is modelled as `Unit`. -/
abbrev PipeMsg := Except Unit MotionStatus

instance : DecidableEq PipeMsg := fun a b =>
  match a, b with
  | Except.ok x, Except.ok y =>
    match decEq x y with
    | isTrue h => isTrue (by rw [h])
    | isFalse h => isFalse (by intro hh; cases hh; exact h rfl)
  | Except.ok _, Except.error _ => isFalse (by intro h; cases h)
  | Except.error _, Except.ok _ => isFalse (by intro h; cases h)
  | Except.error x, Except.error y => isTrue (by cases x; cases y; rfl)

/-! ## Listener task (motion.rs lines 215-259) -/

/-- One entry of the `alarm_event_list` carried by a motion notification:
only the `channel_id` and `status` fields are inspected by the listener. -/
structure AlarmEvent : Type where
  channel_id : Nat
  status : String
deriving DecidableEq, Repr

/-- Classification loop of motion.rs lines 232-243: starting from
`NoChange(now)`, scan the alarm events; on the first entry whose channel
matches, with status "MD" set `Start(now)` and break, with status "none" set
`Stop(now)` and break; a matching entry with any other status does not break
and leaves the result unchanged. -/
def classifyAlarms (ch now : Nat) : List AlarmEvent → MotionStatus
  | [] => MotionStatus.noChange now
  | e :: rest =>
    if e.channel_id = ch then
      if e.status = "MD" then MotionStatus.start now
      else if e.status = "none" then MotionStatus.stop now
      else classifyAlarms ch now rest
    else classifyAlarms ch now rest

/-- One outcome of `sub.recv().await` in the listener loop: either a valid
message (whose body may or may not carry an alarm-event list), received at
time `t`, or a transport failure. -/
inductive RecvOutcome : Type where
  | msg (alarms : Option (List AlarmEvent)) (t : Nat)
  | fail
deriving DecidableEq, Repr

/-- The listener task's loop body, motion.rs lines 218-257, as a map from the
sequence of `sub.recv()` outcomes to the sequence of pipeline messages pushed
into the channel (assuming the receiver stays alive, so that `tx.send` always
succeeds).  Note that the `Err` arm only converts the failure into a pipeline
message; the loop then continues with the next `recv` outcome — there is no
`break` on the failure path. -/
def listenOnMotionTask (ch : Nat) : List RecvOutcome → List PipeMsg
  | [] => []
  | RecvOutcome.msg alarms t :: rest =>
    Except.ok (match alarms with
      | some l => classifyAlarms ch t l
      | none => MotionStatus.noChange t) :: listenOnMotionTask ch rest
  | RecvOutcome.fail :: rest => Except.error () :: listenOnMotionTask ch rest

/-! ## MotionData state and drain (motion.rs lines 21-70) -/

/-- The receiving half of the bounded channel: the buffered pipeline
messages, plus whether the sending side has been dropped. -/
structure Queue : Type where
  buf : List PipeMsg
  closed : Bool
deriving DecidableEq, Repr

/-- MotionData's state as far as the drain/query methods see it: the channel
receiver and the `last_update` field (the spawned task handle only matters
for drop semantics, which are outside this embedding). -/
structure MotionDataS : Type where
  q : Queue
  last_update : MotionStatus
deriving DecidableEq, Repr

/-- Errors surfaced by `consume_motion_events`: a failure message popped from
the queue (`motion?`, propagating the transport's connection-lost error), or
`TryRecvError::Disconnected` converted by `Error::from`. -/
inductive DrainError : Type where
  | connLost
  | disconnected
deriving DecidableEq, Repr

/-- The `loop { match self.rx.try_recv() ... }` of motion.rs lines 59-65,
acting on the buffer and the closed flag.  Returns the drained statuses (or
the first error) together with the messages left in the buffer.  `try_recv`
pops the head if one is buffered, reports `Empty` on an open empty buffer
(breaking the loop) and `Disconnected` on a closed empty buffer (which the
`Err(e)` arm turns into an error return). -/
def consumeLoop : List PipeMsg → Bool → Except DrainError (List MotionStatus) × List PipeMsg
  | [], closed =>
    if closed then (Except.error DrainError.disconnected, [])
    else (Except.ok [], [])
  | Except.error _ :: rest, _ => (Except.error DrainError.connLost, rest)
  | Except.ok st :: rest, closed =>
    match consumeLoop rest closed with
    | (Except.ok sts, rem) => (Except.ok (st :: sts), rem)
    | (Except.error e, rem) => (Except.error e, rem)

/-- `MotionData::consume_motion_events`, motion.rs lines 57-70: drain the
queue without blocking; on success set `last_update` to the last drained
status (if any) and return all drained statuses; on any failure return the
error — the statuses popped before the failure are dropped and
`last_update` is left untouched (the assignment at line 67 is only reached
on the success path). -/
def consumeMotionEvents (s : MotionDataS) : Except DrainError (List MotionStatus) × MotionDataS :=
  match consumeLoop s.q.buf s.q.closed with
  | (Except.ok results, rem) =>
    (Except.ok results,
      { q := { buf := rem, closed := s.q.closed },
        last_update := (results.getLast?).getD s.last_update })
  | (Except.error e, rem) =>
    (Except.error e, { q := { buf := rem, closed := s.q.closed }, last_update := s.last_update })

/-- `MotionData::motion_detected_within`, motion.rs lines 45-52: drain, then
classify `last_update`; a `Stop(time)` counts as recent motion exactly when
`Instant::now() - time < duration` (strict). -/
def motionDetectedWithin (now window : Nat) (s : MotionDataS) :
    Except DrainError (Option Bool) × MotionDataS :=
  match consumeMotionEvents s with
  | (Except.error e, s1) => (Except.error e, s1)
  | (Except.ok _, s1) =>
    (Except.ok (match s1.last_update with
      | MotionStatus.start _ => some true
      | MotionStatus.stop t => some (decide (now - t < window))
      | MotionStatus.noChange _ => none), s1)

/-- Errors surfaced by `next_motion`: a drain error, the failure message
received while awaiting (`moition?`), or `Error::Other("Motion dropped")`
when `rx.recv()` returns `None` (channel closed). -/
inductive NextError : Type where
  | drain (e : DrainError)
  | connLost
  | motionDropped
deriving DecidableEq, Repr

/-- `MotionData::next_motion`, motion.rs lines 75-86: drain first; if the
drain yielded statuses return the last one; otherwise await one value from
the channel (`incoming`; `none` models the channel closing while waiting),
propagating a received failure and recording a received status in
`last_update`. -/
def nextMotion (s : MotionDataS) (incoming : Option PipeMsg) :
    Except NextError MotionStatus × MotionDataS :=
  match consumeMotionEvents s with
  | (Except.error e, s1) => (Except.error (NextError.drain e), s1)
  | (Except.ok motions, s1) =>
    match motions.getLast? with
    | some last => (Except.ok last, s1)
    | none =>
      match incoming with
      | some (Except.ok m) => (Except.ok m, { s1 with last_update := m })
      | some (Except.error _) => (Except.error NextError.connLost, s1)
      | none => (Except.error NextError.motionDropped, s1)

/-! ## Debounce engine (motion.rs lines 88-159)

The `await_stop` / `await_start` loops are embedded over an explicit trace of
time-stamped pipeline messages `evs : List Ev`: each `next_motion` call
receives the next trace element, at its arrival time.  A trace is
well-formed (`Chrono`) when arrival times are nondecreasing, start at or
after the current instant, and each status carries its arrival time as its
timestamp (the listener stamps statuses with `Instant::now()` as they are
produced). -/

/-- A queue event as seen by the debounce loops: arrival time paired with the
pipeline message received. -/
abbrev Ev := Nat × PipeMsg

/-- The status timestamp agrees with the arrival time (trivial for failure
messages, which carry no timestamp). -/
def tsOk (τ : Nat) : PipeMsg → Prop
  | Except.ok s => tsOf s = τ
  | Except.error _ => True

instance (τ : Nat) (m : PipeMsg) : Decidable (tsOk τ m) :=
  match m with
  | Except.ok s => (inferInstance : Decidable (tsOf s = τ))
  | Except.error _ => isTrue trivial

/-- Chronological well-formedness of an event trace starting at instant
`now`: arrival times are nondecreasing, never before `now`, and each status
value carries its arrival time. -/
def Chrono : Nat → List Ev → Prop
  | _, [] => True
  | now, (τ, m) :: rest => now ≤ τ ∧ tsOk τ m ∧ Chrono τ rest

instance chronoDec : (now : Nat) → (evs : List Ev) → Decidable (Chrono now evs)
  | _, [] => isTrue trivial
  | now, (τ, m) :: rest =>
    have : Decidable (Chrono τ rest) := chronoDec τ rest
    inferInstanceAs (Decidable (now ≤ τ ∧ tsOk τ m ∧ Chrono τ rest))

/-- Outcome of one `await_stop`/`await_start` iteration, as observed by the
caller of the model. -/
inductive AwaitResult : Type where
  | success (retTime : Nat)
  | failure
  | pending
deriving DecidableEq, Repr

/-- Outcome of the `tokio::select!` race of motion.rs lines 102-113 (resp.
138-148): the sleep fired first (`timer`), a failure was received before the
deadline (`fail`), the opposite status was received before the deadline and
the subsequent `next_motion` produced a new status `s` at time `τ` with
trace remainder `rest` (`next`), or the trace ran out while waiting for the
opposite status (`blocked`). -/
inductive RaceOut : Type where
  | timer
  | fail
  | blocked
  | next (τ : Nat) (s : MotionStatus) (rest : List Ev)
deriving DecidableEq, Repr

/-- The race of `await_stop` lines 102-118: a sleep with deadline `dl` runs
against an inner loop that keeps calling `next_motion` and returns only on a
`Start` or on an error.  Events arriving strictly before the deadline are
consumed (non-Start statuses are skipped by the inner loop); the first event
at or after the deadline means the sleep fires first.  A winning `Start` is
propagated through `v?` and discarded, after which line 121 immediately
awaits the next event — `next` carries that event. -/
def raceScanStop (dl : Nat) : List Ev → RaceOut
  | [] => RaceOut.timer
  | (τ, m) :: rest =>
    if τ < dl then
      match m with
      | Except.error _ => RaceOut.fail
      | Except.ok (MotionStatus.start _) =>
        match rest with
        | [] => RaceOut.blocked
        | (_, Except.error _) :: _ => RaceOut.fail
        | (τ1, Except.ok s1) :: rest1 => RaceOut.next τ1 s1 rest1
      | Except.ok _ => raceScanStop dl rest
    else RaceOut.timer

/-- The dual race of `await_start` lines 138-154: the inner loop returns on a
`Stop` or on an error. -/
def raceScanStart (dl : Nat) : List Ev → RaceOut
  | [] => RaceOut.timer
  | (τ, m) :: rest =>
    if τ < dl then
      match m with
      | Except.error _ => RaceOut.fail
      | Except.ok (MotionStatus.stop _) =>
        match rest with
        | [] => RaceOut.blocked
        | (_, Except.error _) :: _ => RaceOut.fail
        | (τ1, Except.ok s1) :: rest1 => RaceOut.next τ1 s1 rest1
      | Except.ok _ => raceScanStart dl rest
    else RaceOut.timer

/-- The `loop` of `await_stop`, motion.rs lines 94-122, with an explicit
iteration bound `fuel` (each iteration consumes at least one trace event, so
`evs.length + 1` fuel is always enough; exhausted fuel yields `pending`,
which is also what an empty trace yields at a suspension point).

In the `Stop(time)` state the loop returns at once when `duration.is_zero()`
or `Instant::now() - time > duration` (strict, line 97); otherwise it races
a sleep for the remaining `duration - (now - time)` against the next
`Start`/failure (lines 102-113).  If the sleep fires the call returns `Ok`
at the deadline; a failure propagates; a winning `Start` falls through to
line 121, which awaits a fresh status and re-enters the loop.  In any other
state line 121 awaits the next status and re-enters the loop. -/
def awaitStopGoF (D : Nat) : Nat → Nat → Option MotionStatus → List Ev → AwaitResult
  | 0, _, _, _ => AwaitResult.pending
  | fuel + 1, now, some (MotionStatus.stop t), evs =>
    if D = 0 ∨ D < now - t then AwaitResult.success now
    else
      match raceScanStop (now + (D - (now - t))) evs with
      | RaceOut.timer => AwaitResult.success (now + (D - (now - t)))
      | RaceOut.fail => AwaitResult.failure
      | RaceOut.blocked => AwaitResult.pending
      | RaceOut.next τ1 s1 rest1 => awaitStopGoF D fuel τ1 (some s1) rest1
  | fuel + 1, _, _, evs =>
    match evs with
    | [] => AwaitResult.pending
    | (_, Except.error _) :: _ => AwaitResult.failure
    | (τ, Except.ok s) :: rest => awaitStopGoF D fuel τ (some s) rest

/-- The `loop` of `await_start`, motion.rs lines 131-158: mirror image of
`awaitStopGoF` with Start and Stop exchanged. -/
def awaitStartGoF (D : Nat) : Nat → Nat → Option MotionStatus → List Ev → AwaitResult
  | 0, _, _, _ => AwaitResult.pending
  | fuel + 1, now, some (MotionStatus.start t), evs =>
    if D = 0 ∨ D < now - t then AwaitResult.success now
    else
      match raceScanStart (now + (D - (now - t))) evs with
      | RaceOut.timer => AwaitResult.success (now + (D - (now - t)))
      | RaceOut.fail => AwaitResult.failure
      | RaceOut.blocked => AwaitResult.pending
      | RaceOut.next τ1 s1 rest1 => awaitStartGoF D fuel τ1 (some s1) rest1
  | fuel + 1, _, _, evs =>
    match evs with
    | [] => AwaitResult.pending
    | (_, Except.error _) :: _ => AwaitResult.failure
    | (τ, Except.ok s) :: rest => awaitStartGoF D fuel τ (some s) rest

/-- `MotionData::await_stop`, motion.rs lines 91-123: drain the backlog, take
its last status as the initial `last_motion`, then run the loop.  `backlog`
is the list of statuses the initial `consume_motion_events` returned. -/
def awaitStop (D now : Nat) (backlog : List MotionStatus) (evs : List Ev) : AwaitResult :=
  awaitStopGoF D (evs.length + 1) now backlog.getLast? evs

/-- `MotionData::await_start`, motion.rs lines 128-159: drain the backlog,
take its last status as the initial `last_motion`, then run the loop. -/
def awaitStart (D now : Nat) (backlog : List MotionStatus) (evs : List Ev) : AwaitResult :=
  awaitStartGoF D (evs.length + 1) now backlog.getLast? evs

/-! ## MaybeAppSrc (maybe_app_src.rs) -/

/-- An AppSrc as far as `write` observes it: whether its `push_buffer`
call succeeds. -/
structure AppSrc : Type where
  pushOk : Bool
deriving DecidableEq, Repr

/-- MaybeAppSrc's state: the AppSrcs queued on the channel from
`new_with_tx`, the currently owned AppSrc, and the optional external
`States` object, reduced to its client-connected flag. -/
structure MaybeAppSrcS : Type where
  pending : List AppSrc
  app_src : Option AppSrc
  state : Option Bool
deriving DecidableEq, Repr

/-- The `while let` of `try_get_src`, maybe_app_src.rs lines 41-46: adopt
each queued AppSrc in turn (the last received wins) and call
`set_client_connected(true)` on the external state for each one received. -/
def tryGetSrcLoop : List AppSrc → Option AppSrc → Option Bool → Option AppSrc × Option Bool
  | [], app, st => (app, st)
  | src :: rest, _, st => tryGetSrcLoop rest (some src) (st.map fun _ => true)

/-- `MaybeAppSrc::try_get_src`, maybe_app_src.rs lines 40-48: drain the
channel, then return the owned AppSrc, if any. -/
def tryGetSrc (s : MaybeAppSrcS) : Option AppSrc × MaybeAppSrcS :=
  match tryGetSrcLoop s.pending s.app_src s.state with
  | (app, st) => (app, { pending := [], app_src := app, state := st })

/-- Placeholder for `std::io::Error`; `write` can mention it in its return
type but never produces one. -/
inductive IoError : Type where
  | ioErr
deriving DecidableEq, Repr

/-- `MaybeAppSrc`'s `Write::write`, maybe_app_src.rs lines 52-74: with no
AppSrc available the data is discarded and `Ok(buf.len())` returned; with an
AppSrc, `push_buffer` is attempted and on failure the AppSrc is dropped and
the external state marked disconnected — but `Ok(buf.len())` is returned in
every case. -/
def maybeAppSrcWrite (s : MaybeAppSrcS) (buf : List Nat) :
    Except IoError Nat × MaybeAppSrcS :=
  match tryGetSrc s with
  | (none, s1) => (Except.ok buf.length, s1)
  | (some src, s1) =>
    if src.pushOk then (Except.ok buf.length, s1)
    else (Except.ok buf.length,
      { s1 with app_src := none, state := s1.state.map fun _ => false })

/-! ## Floodlight command (floodlight_status.rs lines 6-55) -/

/-- Reply metadata: only the response code is inspected. -/
structure BcReplyMeta : Type where
  response_code : Nat
deriving DecidableEq, Repr

/-- The transport outcomes `set_floodlight_manual` can encounter: whether
`connection.subscribe` succeeds, whether `sub_set.send` succeeds, and what
`sub_set.recv` produces (a reply or a transport failure). -/
structure FlTransport : Type where
  subscribe_ok : Bool
  send_ok : Bool
  recv : Except Unit BcReplyMeta
deriving Repr

/-- Errors of the floodlight call: a propagated transport failure, or
`Error::UnintelligibleReply` with its `why` text. -/
inductive CamError : Type where
  | transport
  | unintelligibleReply (why : String)
deriving DecidableEq, Repr

/-- The `FloodlightManual` xml payload built at floodlight_status.rs lines
27-35. -/
structure FloodlightManual : Type where
  version : String
  channel_id : Nat
  status : Nat
  duration : Nat
deriving DecidableEq, Repr

/-- The payload construction: `status` is 1 for `state == true` and 0 for
`state == false` (lines 30-33). -/
def mkFloodlightManual (channel_id : Nat) (state : Bool) (duration : Nat) : FloodlightManual :=
  { version := "1", channel_id := channel_id,
    status := match state with | true => 1 | false => 0,
    duration := duration }

/-- `BcCamera::set_floodlight_manual`, floodlight_status.rs lines 6-55:
subscribe, send the request, receive the reply; `Ok(())` exactly when the
reply's `response_code` is 200, `UnintelligibleReply` on any other reply,
and propagation of subscribe/send/recv failures. -/
def set_floodlight_manual (tr : FlTransport) (channel_id : Nat) (state : Bool)
    (duration : Nat) : Except CamError Unit :=
  if tr.subscribe_ok = false then Except.error CamError.transport
  else if tr.send_ok = false then Except.error CamError.transport
  else
    match tr.recv with
    | Except.error _ => Except.error CamError.transport
    | Except.ok meta =>
      if meta.response_code = 200 then Except.ok ()
      else Except.error (CamError.unintelligibleReply
        "The camera did not accept the Floodlight manual state")

/-!
# Theorems
-/

/-- C2 (code evaluated at the failing input): when `sub.recv()` fails twice
in a row, the listener task pushes two failure messages — after the first
failure has been pushed it does not terminate but loops, receives again and
pushes a second failure, contradicting the push-once-then-terminate claim
(and the code's own comment at motion.rs line 249). -/
theorem listener_pushes_second_failure :
    listenOnMotionTask 0 [RecvOutcome.fail, RecvOutcome.fail] =
      [Except.error (), Except.error ()] := rfl

/-- C3 counterexample: with session channel 0 and the alarm-event list
[(channel 0, status "xx"), (channel 0, status "MD")], the first entry
matching the channel is the "xx" entry, and by the claim it alone should
determine the result (NoChange, as the second conjunct shows it yields when
it is the only entry); but the listener emits Start — the later matching
entry overrode the earlier one. -/
theorem classifyAlarms_later_entry_decides :
    classifyAlarms 0 7 [⟨0, "xx"⟩, ⟨0, "MD"⟩] = MotionStatus.start 7 ∧
    classifyAlarms 0 7 [⟨0, "xx"⟩] = MotionStatus.noChange 7 := by
  constructor <;> rfl

/-- C3 (amended): the result of a notification is determined by the first
entry in scan order that matches the session's channel AND carries status
"MD" or "none": Start for "MD", Stop for "none", and NoChange when no such
entry exists; matching entries with any other status are skipped. -/
theorem classifyAlarms_eq_find (ch now : Nat) (l : List AlarmEvent) :
    classifyAlarms ch now l =
      match l.find? (fun e =>
          e.channel_id == ch && (e.status == "MD" || e.status == "none")) with
      | some e => if e.status = "MD" then MotionStatus.start now
                  else MotionStatus.stop now
      | none => MotionStatus.noChange now := by
  induction l with
  | nil => rfl
  | cons e rest ih =>
    by_cases h1 : e.channel_id = ch
    · by_cases h2 : e.status = "MD"
      · simp [classifyAlarms, h1, h2, List.find?]
      · by_cases h3 : e.status = "none"
        · simp [classifyAlarms, h1, h2, h3, List.find?]
        · have b2 : (e.status == "MD") = false := by simp [h2]
          have b3 : (e.status == "none") = false := by simp [h3]
          simp [classifyAlarms, h1, h2, h3, List.find?, b2, b3, ih]
    · have b1 : (e.channel_id == ch) = false := by simp [h1]
      simp [classifyAlarms, h1, List.find?, b1, ih]

/-- C7: after a successful internal drain, `motion_detected_within`
classifies `last_update` as follows: Start always yields `some true`,
NoChange always yields `none`, and `Stop(t)` yields
`some (now - t < window)` with strict less-than, so at exactly
`now - t = window` it yields `some false`. -/
theorem motion_detected_within_classifies (now window : Nat) (s s1 : MotionDataS)
    (r : Option Bool) (h : motionDetectedWithin now window s = (Except.ok r, s1)) :
    (∀ t, s1.last_update = MotionStatus.start t → r = some true) ∧
    (∀ t, s1.last_update = MotionStatus.noChange t → r = none) ∧
    (∀ t, s1.last_update = MotionStatus.stop t →
      r = some (decide (now - t < window)) ∧ (now - t = window → r = some false)) := by
  unfold motionDetectedWithin at h
  rcases hc : consumeMotionEvents s with ⟨res, s2⟩
  rw [hc] at h
  cases res with
  | error e => simp at h
  | ok l =>
    simp only [Prod.mk.injEq, Except.ok.injEq] at h
    obtain ⟨hr, hs⟩ := h
    subst hs
    refine ⟨?_, ?_, ?_⟩
    · intro t ht; rw [ht] at hr; exact hr.symm
    · intro t ht; rw [ht] at hr; exact hr.symm
    · intro t ht
      rw [ht] at hr
      refine ⟨hr.symm, ?_⟩
      intro hw
      rw [← hr]
      simp [hw]

/-- Witness for C7 at a concrete input: queue empty, `last_update = Stop 3`,
`now = 5`, `window = 2`, so `now - t = window` exactly; the call returns
`some false`. -/
theorem motion_detected_within_classifies_witness :
    (∀ t, (MotionDataS.mk ⟨[], false⟩ (MotionStatus.stop 3)).last_update =
        MotionStatus.start t → (some false : Option Bool) = some true) ∧
    (∀ t, (MotionDataS.mk ⟨[], false⟩ (MotionStatus.stop 3)).last_update =
        MotionStatus.noChange t → (some false : Option Bool) = none) ∧
    (∀ t, (MotionDataS.mk ⟨[], false⟩ (MotionStatus.stop 3)).last_update =
        MotionStatus.stop t →
      (some false : Option Bool) = some (decide (5 - t < 2)) ∧
        (5 - t = 2 → (some false : Option Bool) = some false)) :=
  motion_detected_within_classifies 5 2
    (MotionDataS.mk ⟨[], false⟩ (MotionStatus.stop 3))
    (MotionDataS.mk ⟨[], false⟩ (MotionStatus.stop 3)) (some false) rfl

/-- C9: `MaybeAppSrc::write` never returns an I/O error and always reports
the full input length as written; when no AppSrc is available the state is
just the post-drain state (data silently discarded); when `push_buffer`
fails the owned AppSrc is cleared and the external state, when attached, is
marked disconnected — while the call still returns `Ok(buf.len())`. -/
theorem maybe_app_src_write_spec (s : MaybeAppSrcS) (buf : List Nat) :
    ((maybeAppSrcWrite s buf).1 = Except.ok buf.length) ∧
    (∀ s1, tryGetSrc s = (none, s1) → (maybeAppSrcWrite s buf).2 = s1) ∧
    (∀ src s1, tryGetSrc s = (some src, s1) → src.pushOk = false →
      (maybeAppSrcWrite s buf).2.app_src = none ∧
      (maybeAppSrcWrite s buf).2.state = s1.state.map fun _ => false) := by
  rcases h : tryGetSrc s with ⟨app, s1⟩
  cases app with
  | none =>
    refine ⟨?_, ?_, ?_⟩
    · simp [maybeAppSrcWrite, h]
    · intro s2 h2
      simp only [Prod.mk.injEq] at h2
      simp [maybeAppSrcWrite, h, h2.2]
    · intro src s2 h2; simp at h2
  | some src =>
    by_cases hp : src.pushOk
    · refine ⟨?_, ?_, ?_⟩
      · simp [maybeAppSrcWrite, h, hp]
      · intro s2 h2; simp at h2
      · intro src2 s2 h2 hfail
        simp only [Prod.mk.injEq, Option.some.injEq] at h2
        rw [← h2.1] at hfail; rw [hp] at hfail; cases hfail
    · refine ⟨?_, ?_, ?_⟩
      · simp [maybeAppSrcWrite, h, hp]
      · intro s2 h2; simp at h2
      · intro src2 s2 h2 hfail
        simp only [Prod.mk.injEq, Option.some.injEq] at h2
        constructor
        · simp [maybeAppSrcWrite, h, hp]
        · rw [← h2.2]; simp [maybeAppSrcWrite, h, hp]

/-- Witness for C9 at a concrete input: one pending AppSrc whose
`push_buffer` fails, an attached external state, a 3-byte buffer; the call
reports 3 bytes written and clears the AppSrc. -/
theorem maybe_app_src_write_spec_witness :
    ((maybeAppSrcWrite ⟨[⟨false⟩], none, some true⟩ [1, 2, 3]).1 = Except.ok 3 ∧
     (maybeAppSrcWrite ⟨[⟨false⟩], none, some true⟩ [1, 2, 3]).2.app_src = none) :=
  ⟨(maybe_app_src_write_spec ⟨[⟨false⟩], none, some true⟩ [1, 2, 3]).1,
   ((maybe_app_src_write_spec ⟨[⟨false⟩], none, some true⟩ [1, 2, 3]).2.2
      ⟨false⟩ ⟨[], some ⟨false⟩, some true⟩ rfl rfl).1⟩

/-- A successful drain loop consumed the whole buffer and can only happen
while the sender is still alive. -/
theorem consumeLoop_ok {buf : List PipeMsg} {closed : Bool} {l : List MotionStatus}
    {rem : List PipeMsg} (h : consumeLoop buf closed = (Except.ok l, rem)) :
    rem = [] ∧ closed = false := by
  induction buf generalizing l rem with
  | nil =>
    cases closed with
    | false =>
      have h2 : ([] : List PipeMsg) = rem := congrArg Prod.snd h
      exact ⟨h2.symm, rfl⟩
    | true => simp [consumeLoop] at h
  | cons x rest ih =>
    cases x with
    | error e => simp [consumeLoop] at h
    | ok st =>
      simp only [consumeLoop] at h
      rcases hr : consumeLoop rest closed with ⟨res2, rem2⟩
      rw [hr] at h
      cases res2 with
      | ok sts =>
        have h2 : rem2 = rem := congrArg Prod.snd h
        rw [← h2]
        exact ih hr
      | error e2 => simp at h

/-- Draining a buffer whose first failure message sits after an all-ok
stretch stops at that failure, discards the statuses read so far from the
result, and leaves exactly the messages after the failure buffered. -/
theorem consumeLoop_err_at_first_failure (closed : Bool) (post : List PipeMsg) :
    ∀ pre : List PipeMsg, (∀ x ∈ pre, ∃ m, x = Except.ok m) →
    ∀ e : Unit, consumeLoop (pre ++ Except.error e :: post) closed =
      (Except.error DrainError.connLost, post) := by
  intro pre
  induction pre with
  | nil => intro _ e; rfl
  | cons x pre ih =>
    intro hpre e
    obtain ⟨m, rfl⟩ := hpre x (by simp)
    have hrec := ih (fun y hy => hpre y (by simp [hy])) e
    simp only [List.cons_append, consumeLoop, List.append_eq]
    rw [hrec]

/-- A failed drain loop leaves a suffix of the original buffer. -/
theorem consumeLoop_err_suffix {buf : List PipeMsg} {closed : Bool} {e : DrainError}
    {rem : List PipeMsg} (h : consumeLoop buf closed = (Except.error e, rem)) :
    rem <:+ buf := by
  induction buf generalizing e rem with
  | nil =>
    cases closed with
    | false => simp [consumeLoop] at h
    | true =>
      have h2 : ([] : List PipeMsg) = rem := congrArg Prod.snd h
      rw [← h2]
  | cons x rest ih =>
    cases x with
    | error e0 =>
      have h2 : rest = rem := congrArg Prod.snd h
      rw [← h2]
      exact List.suffix_cons _ _
    | ok st =>
      simp only [consumeLoop] at h
      rcases hr : consumeLoop rest closed with ⟨res2, rem2⟩
      rw [hr] at h
      cases res2 with
      | ok sts => simp at h
      | error e2 =>
        have h2 : rem2 = rem := congrArg Prod.snd h
        rw [← h2]
        exact (ih hr).trans (List.suffix_cons _ _)

/-- C5: `consume_motion_events` fails as a whole whenever a failure message
is reached: with the buffer holding an all-ok stretch, then a failure, then
`post`, it returns the connection-lost error, discards the drained statuses
from its return, and leaves `last_update` untouched; on an empty open queue
it succeeds with an empty list and an unchanged state; and a drain that
succeeded leaves a state on which an immediately repeated drain returns an
empty list without error. -/
theorem consume_motion_events_spec (s : MotionDataS) :
    (∀ pre e post, s.q.buf = pre ++ Except.error e :: post →
      (∀ x ∈ pre, ∃ m, x = Except.ok m) →
      consumeMotionEvents s =
        (Except.error DrainError.connLost,
         { q := { buf := post, closed := s.q.closed }, last_update := s.last_update })) ∧
    (s.q.buf = [] → s.q.closed = false → consumeMotionEvents s = (Except.ok [], s)) ∧
    (∀ l s1, consumeMotionEvents s = (Except.ok l, s1) →
      consumeMotionEvents s1 = (Except.ok [], s1)) := by
  refine ⟨?_, ?_, ?_⟩
  · intro pre e post hbuf hpre
    have hcl := consumeLoop_err_at_first_failure s.q.closed post pre hpre e
    unfold consumeMotionEvents
    rw [hbuf, hcl]
  · intro hbuf hcl
    unfold consumeMotionEvents
    rw [hbuf, hcl]
    simp only [consumeLoop, if_neg Bool.false_ne_true]
    cases s with
    | mk q lu =>
      cases q with
      | mk b c =>
        simp only at hbuf hcl
        subst hbuf hcl
        rfl
  · intro l s1 h
    unfold consumeMotionEvents at h
    rcases hr : consumeLoop s.q.buf s.q.closed with ⟨res, rem⟩
    rw [hr] at h
    cases res with
    | error e => simp at h
    | ok results =>
      simp only [Prod.mk.injEq, Except.ok.injEq] at h
      obtain ⟨hl, hs⟩ := h
      have hok := consumeLoop_ok hr
      rw [← hs]
      unfold consumeMotionEvents
      simp [hok.1, hok.2, consumeLoop]

/-- Witness for C5 at concrete inputs: a buffer holding one status then a
failure fails as a whole, dropping the status; and a drain that succeeded
(one Stop drained) leaves a state whose immediate re-drain returns []. -/
theorem consume_motion_events_spec_witness :
    consumeMotionEvents
        ⟨⟨[Except.ok (MotionStatus.start 1), Except.error ()], false⟩, MotionStatus.noChange 0⟩ =
      (Except.error DrainError.connLost, ⟨⟨[], false⟩, MotionStatus.noChange 0⟩) ∧
    consumeMotionEvents ⟨⟨[], false⟩, MotionStatus.stop 2⟩ =
      (Except.ok [], ⟨⟨[], false⟩, MotionStatus.stop 2⟩) :=
  ⟨(consume_motion_events_spec
      ⟨⟨[Except.ok (MotionStatus.start 1), Except.error ()], false⟩, MotionStatus.noChange 0⟩).1
      [Except.ok (MotionStatus.start 1)] () [] rfl
      (by rintro x hx; simp only [List.mem_singleton] at hx; exact ⟨_, hx⟩),
   (consume_motion_events_spec
      ⟨⟨[Except.ok (MotionStatus.stop 2)], false⟩, MotionStatus.noChange 0⟩).2.2
      [MotionStatus.stop 2] ⟨⟨[], false⟩, MotionStatus.stop 2⟩ rfl⟩

/-- C8: whenever `consume_motion_events` returns an error, `last_update` is
left exactly as it was, even though the messages popped before the failure
are gone — the state's buffer is a suffix of the original buffer. -/
theorem consume_motion_events_error_preserves (s : MotionDataS) (e : DrainError)
    (s1 : MotionDataS) (h : consumeMotionEvents s = (Except.error e, s1)) :
    s1.last_update = s.last_update ∧ s1.q.buf <:+ s.q.buf := by
  unfold consumeMotionEvents at h
  rcases hr : consumeLoop s.q.buf s.q.closed with ⟨res, rem⟩
  rw [hr] at h
  cases res with
  | ok results => simp at h
  | error e2 =>
    simp only [Prod.mk.injEq, Except.error.injEq] at h
    rw [← h.2]
    exact ⟨rfl, consumeLoop_err_suffix hr⟩

/-- Witness for C8 at a concrete input: a Start status followed by a failure
is drained with an error; `last_update` keeps its pre-call value `NoChange 5`
and the queue is left empty (a suffix of the original buffer). -/
theorem consume_motion_events_error_preserves_witness :
    (MotionDataS.mk ⟨[], false⟩ (MotionStatus.noChange 5)).last_update =
      (MotionDataS.mk ⟨[Except.ok (MotionStatus.start 1), Except.error ()], false⟩
        (MotionStatus.noChange 5)).last_update ∧
    (MotionDataS.mk ⟨[], false⟩ (MotionStatus.noChange 5)).q.buf <:+
      (MotionDataS.mk ⟨[Except.ok (MotionStatus.start 1), Except.error ()], false⟩
        (MotionStatus.noChange 5)).q.buf :=
  consume_motion_events_error_preserves
    ⟨⟨[Except.ok (MotionStatus.start 1), Except.error ()], false⟩, MotionStatus.noChange 5⟩
    DrainError.connLost ⟨⟨[], false⟩, MotionStatus.noChange 5⟩ rfl

/-- C6: `next_motion` first performs the non-blocking drain; when the drain
yielded statuses it returns the last one without consulting the awaited
value; when it yielded nothing it awaits one value — a received status is
returned (and recorded in `last_update`), a received failure is an error,
and a closed channel (`none`) is the "Motion dropped" error. -/
theorem next_motion_spec (s : MotionDataS) (incoming : Option PipeMsg) :
    (∀ l s1 x, consumeMotionEvents s = (Except.ok l, s1) → l.getLast? = some x →
      nextMotion s incoming = (Except.ok x, s1)) ∧
    (∀ s1, consumeMotionEvents s = (Except.ok [], s1) →
      (∀ m, incoming = some (Except.ok m) →
        nextMotion s incoming = (Except.ok m, { s1 with last_update := m })) ∧
      (∀ e, incoming = some (Except.error e) →
        nextMotion s incoming = (Except.error NextError.connLost, s1)) ∧
      (incoming = none →
        nextMotion s incoming = (Except.error NextError.motionDropped, s1))) := by
  constructor
  · intro l s1 x h hl
    simp [nextMotion, h, hl]
  · intro s1 h
    refine ⟨?_, ?_, ?_⟩
    · intro m him; simp [nextMotion, h, him]
    · intro e him; simp [nextMotion, h, him]
    · intro him; simp [nextMotion, h, him]

/-- Witness for C6 at concrete inputs: with a Start buffered, `next_motion`
returns it without touching the awaited value; with an empty queue and the
channel closing, it fails with the "Motion dropped" error. -/
theorem next_motion_spec_witness :
    nextMotion ⟨⟨[Except.ok (MotionStatus.start 4)], false⟩, MotionStatus.noChange 0⟩ none =
      (Except.ok (MotionStatus.start 4), ⟨⟨[], false⟩, MotionStatus.start 4⟩) ∧
    nextMotion ⟨⟨[], false⟩, MotionStatus.noChange 0⟩ none =
      (Except.error NextError.motionDropped, ⟨⟨[], false⟩, MotionStatus.noChange 0⟩) :=
  ⟨(next_motion_spec ⟨⟨[Except.ok (MotionStatus.start 4)], false⟩, MotionStatus.noChange 0⟩
      none).1 [MotionStatus.start 4] ⟨⟨[], false⟩, MotionStatus.start 4⟩
      (MotionStatus.start 4) rfl rfl,
   ((next_motion_spec ⟨⟨[], false⟩, MotionStatus.noChange 0⟩ none).2
      ⟨⟨[], false⟩, MotionStatus.noChange 0⟩ rfl).2.2 rfl⟩

/-- C10: `set_floodlight_manual` succeeds exactly when subscribe, send and
recv all succeed and the reply carries response code 200; a reply with any
other code yields `UnintelligibleReply`; transport failures propagate as
errors; and the request payload encodes `state = true` as status 1 and
`state = false` as status 0. -/
theorem set_floodlight_manual_spec (tr : FlTransport) (ch : Nat) (st : Bool) (d : Nat) :
    (set_floodlight_manual tr ch st d = Except.ok () ↔
      tr.subscribe_ok = true ∧ tr.send_ok = true ∧
      ∃ meta, tr.recv = Except.ok meta ∧ meta.response_code = 200) ∧
    (∀ meta, tr.subscribe_ok = true → tr.send_ok = true →
      tr.recv = Except.ok meta → meta.response_code ≠ 200 →
      set_floodlight_manual tr ch st d =
        Except.error (CamError.unintelligibleReply
          "The camera did not accept the Floodlight manual state")) ∧
    ((tr.subscribe_ok = false ∨ tr.send_ok = false ∨ ∃ e, tr.recv = Except.error e) →
      set_floodlight_manual tr ch st d = Except.error CamError.transport) ∧
    (mkFloodlightManual ch true d).status = 1 ∧
    (mkFloodlightManual ch false d).status = 0 := by
  refine ⟨?_, ?_, ?_, rfl, rfl⟩
  · constructor
    · intro h
      by_cases h1 : tr.subscribe_ok = false
      · simp [set_floodlight_manual, h1] at h
      · by_cases h2 : tr.send_ok = false
        · simp [set_floodlight_manual, h1, h2] at h
        · rcases hr : tr.recv with e | meta
          · simp [set_floodlight_manual, h1, h2, hr] at h
          · by_cases h3 : meta.response_code = 200
            · exact ⟨by simpa using h1, by simpa using h2, meta, rfl, h3⟩
            · simp [set_floodlight_manual, h1, h2, hr, h3] at h
    · rintro ⟨h1, h2, meta, hr, h3⟩
      simp [set_floodlight_manual, h1, h2, hr, h3]
  · intro meta h1 h2 hr h3
    simp [set_floodlight_manual, h1, h2, hr, h3]
  · rintro (h1 | h2 | ⟨e, hr⟩)
    · simp [set_floodlight_manual, h1]
    · by_cases h1 : tr.subscribe_ok = false
      · simp [set_floodlight_manual, h1]
      · simp [set_floodlight_manual, h1, h2]
    · by_cases h1 : tr.subscribe_ok = false
      · simp [set_floodlight_manual, h1]
      · by_cases h2 : tr.send_ok = false
        · simp [set_floodlight_manual, h1, h2]
        · simp [set_floodlight_manual, h1, h2, hr]

@[simp] theorem chrono_nil {now : Nat} : Chrono now ([] : List Ev) ↔ True := Iff.rfl

@[simp] theorem chrono_cons {now τ : Nat} {m : PipeMsg} {rest : List Ev} :
    Chrono now ((τ, m) :: rest) ↔ now ≤ τ ∧ tsOk τ m ∧ Chrono τ rest := Iff.rfl

/-- In a chronological trace every event arrives at or after the start
instant. -/
theorem chrono_le_of_mem {now : Nat} {evs : List Ev} (hch : Chrono now evs) :
    ∀ x ∈ evs, now ≤ x.1 := by
  induction evs generalizing now with
  | nil => intro x hx; cases hx
  | cons hd rest ih =>
    obtain ⟨τ0, m⟩ := hd
    rw [chrono_cons] at hch
    obtain ⟨h1, _, h3⟩ := hch
    intro x hx
    rcases List.mem_cons.1 hx with rfl | hx2
    · exact h1
    · exact le_trans h1 (ih h3 x hx2)

/-- Unfolding lemma: zero fuel yields pending. -/
theorem awaitStopGoF_zero (D now : Nat) (last : Option MotionStatus) (evs : List Ev) :
    awaitStopGoF D 0 now last evs = AwaitResult.pending := rfl

/-- Unfolding lemma for the Stop state of the `await_stop` loop. -/
theorem awaitStopGoF_succ_stop (D n now t : Nat) (evs : List Ev) :
    awaitStopGoF D (n + 1) now (some (MotionStatus.stop t)) evs =
      if D = 0 ∨ D < now - t then AwaitResult.success now
      else
        match raceScanStop (now + (D - (now - t))) evs with
        | RaceOut.timer => AwaitResult.success (now + (D - (now - t)))
        | RaceOut.fail => AwaitResult.failure
        | RaceOut.blocked => AwaitResult.pending
        | RaceOut.next τ1 s1 rest1 => awaitStopGoF D n τ1 (some s1) rest1 := rfl

/-- Unfolding lemma for the non-Stop states of the `await_stop` loop: line
121 awaits the next status and re-enters the loop with it. -/
theorem awaitStopGoF_succ_advance (D n now : Nat) (last : Option MotionStatus)
    (evs : List Ev) (hlast : ∀ t, last ≠ some (MotionStatus.stop t)) :
    awaitStopGoF D (n + 1) now last evs =
      match evs with
      | [] => AwaitResult.pending
      | (_, Except.error _) :: _ => AwaitResult.failure
      | (τ, Except.ok s) :: rest => awaitStopGoF D n τ (some s) rest := by
  rcases last with _ | s
  · rfl
  · rcases s with t | t | t
    · rfl
    · exact absurd rfl (hlast t)
    · rfl

/-- If the sleep wins the `await_stop` race, every Start event of the
(chronological) trace arrives at or after the deadline. -/
theorem raceScanStop_timer_start {dl now : Nat} {evs : List Ev}
    (hch : Chrono now evs) (h : raceScanStop dl evs = RaceOut.timer) :
    ∀ τ ts, (τ, Except.ok (MotionStatus.start ts)) ∈ evs → dl ≤ τ := by
  induction evs generalizing now with
  | nil => intro τ ts hm; cases hm
  | cons hd rest ih =>
    obtain ⟨τ0, m⟩ := hd
    rw [chrono_cons] at hch
    obtain ⟨h1, h2, h3⟩ := hch
    intro τ ts hm
    by_cases hlt : τ0 < dl
    · cases m with
      | error e => simp [raceScanStop, hlt] at h
      | ok s0 =>
        cases s0 with
        | start t0 =>
          cases rest with
          | nil => simp [raceScanStop, hlt] at h
          | cons hd1 rest1 =>
            obtain ⟨τ1, m1⟩ := hd1
            cases m1 with
            | error e1 => simp [raceScanStop, hlt] at h
            | ok s1 => simp [raceScanStop, hlt] at h
        | stop t0 =>
          have hrec : raceScanStop dl rest = RaceOut.timer := by
            simpa [raceScanStop, hlt] using h
          rcases List.mem_cons.1 hm with heq | hm2
          · simp at heq
          · exact ih h3 hrec τ ts hm2
        | noChange t0 =>
          have hrec : raceScanStop dl rest = RaceOut.timer := by
            simpa [raceScanStop, hlt] using h
          rcases List.mem_cons.1 hm with heq | hm2
          · simp at heq
          · exact ih h3 hrec τ ts hm2
    · rcases List.mem_cons.1 hm with heq | hm2
      · have hfst : τ = τ0 := congrArg Prod.fst heq
        omega
      · have := chrono_le_of_mem h3 _ hm2
        simp only at this
        omega

/-- Facts carried by a `next` outcome of the `await_stop` race: the resumed
event arrives no earlier than the current instant, carries its arrival time,
leaves a chronological remainder contained in the trace, and everything not
in the remainder arrived no later than the resumed event. -/
theorem raceScanStop_next_facts {dl now τn : Nat} {sn : MotionStatus}
    {evs restn : List Ev} (hch : Chrono now evs)
    (h : raceScanStop dl evs = RaceOut.next τn sn restn) :
    now ≤ τn ∧ tsOf sn = τn ∧ Chrono τn restn ∧
    (τn, Except.ok sn) ∈ evs ∧
    (∀ x ∈ restn, x ∈ evs) ∧
    (∀ x ∈ evs, x ∈ restn ∨ x.1 ≤ τn) := by
  induction evs generalizing now with
  | nil => simp [raceScanStop] at h
  | cons hd rest ih =>
    obtain ⟨τ0, m⟩ := hd
    rw [chrono_cons] at hch
    obtain ⟨h1, h2, h3⟩ := hch
    by_cases hlt : τ0 < dl
    · cases m with
      | error e => simp [raceScanStop, hlt] at h
      | ok s0 =>
        cases s0 with
        | start t0 =>
          cases rest with
          | nil => simp [raceScanStop, hlt] at h
          | cons hd1 rest1 =>
            obtain ⟨τ1, m1⟩ := hd1
            cases m1 with
            | error e1 => simp [raceScanStop, hlt] at h
            | ok s1 =>
              have h' : RaceOut.next τ1 s1 rest1 = RaceOut.next τn sn restn := by
                simpa [raceScanStop, hlt] using h
              obtain ⟨hτ, hs, hr⟩ := RaceOut.next.inj h'
              subst hτ hs hr
              rw [chrono_cons] at h3
              obtain ⟨h31, h32, h33⟩ := h3
              refine ⟨le_trans h1 h31, h32, h33, by simp, ?_, ?_⟩
              · intro x hx
                simp [hx]
              · intro x hx
                rcases List.mem_cons.1 hx with rfl | hx2
                · right; exact h31
                · rcases List.mem_cons.1 hx2 with rfl | hx3
                  · right; exact le_refl _
                  · left; exact hx3
        | stop t0 =>
          have hrec : raceScanStop dl rest = RaceOut.next τn sn restn := by
            simpa [raceScanStop, hlt] using h
          obtain ⟨f1, f2, f3, f4, f5, f6⟩ := ih h3 hrec
          refine ⟨le_trans h1 f1, f2, f3, List.mem_cons_of_mem _ f4, ?_, ?_⟩
          · intro x hx
            exact List.mem_cons_of_mem _ (f5 x hx)
          · intro x hx
            rcases List.mem_cons.1 hx with rfl | hx2
            · right; exact f1
            · exact f6 x hx2
        | noChange t0 =>
          have hrec : raceScanStop dl rest = RaceOut.next τn sn restn := by
            simpa [raceScanStop, hlt] using h
          obtain ⟨f1, f2, f3, f4, f5, f6⟩ := ih h3 hrec
          refine ⟨le_trans h1 f1, f2, f3, List.mem_cons_of_mem _ f4, ?_, ?_⟩
          · intro x hx
            exact List.mem_cons_of_mem _ (f5 x hx)
          · intro x hx
            rcases List.mem_cons.1 hx with rfl | hx2
            · right; exact f1
            · exact f6 x hx2
    · simp [raceScanStop, hlt] at h

/-- Generalised success analysis for the `await_stop` loop: along a
chronological trace, with a state invariant tying a Stop last-status to the
current instant, success at time `τ` exhibits a Stop at some `t` (the
current one or one from the trace) with `t + D ≤ τ` and no Start event
arriving strictly inside the window `(t, t + D)`. -/
theorem awaitStopGoF_success_aux {D : Nat} (hD : 0 < D) :
    ∀ (fuel now : Nat) (last : Option MotionStatus) (evs : List Ev) (τ : Nat),
      Chrono now evs →
      (∀ t, last = some (MotionStatus.stop t) → now = t) →
      awaitStopGoF D fuel now last evs = AwaitResult.success τ →
      ∃ t, now ≤ t ∧ t + D ≤ τ ∧
        (last = some (MotionStatus.stop t) ∨ (t, Except.ok (MotionStatus.stop t)) ∈ evs) ∧
        (∀ τ1 ts, (τ1, Except.ok (MotionStatus.start ts)) ∈ evs → τ1 ≤ t ∨ t + D ≤ τ1) := by
  intro fuel
  induction fuel with
  | zero =>
    intro now last evs τ _ _ h
    rw [awaitStopGoF_zero] at h
    cases h
  | succ n ih =>
    intro now last evs τ hch hinv h
    by_cases hstop : ∃ t, last = some (MotionStatus.stop t)
    · obtain ⟨t, rfl⟩ := hstop
      have hnt : now = t := hinv t rfl
      subst hnt
      rw [awaitStopGoF_succ_stop] at h
      rw [if_neg (by omega : ¬(D = 0 ∨ D < now - now))] at h
      have hdl : now + (D - (now - now)) = now + D := by omega
      rw [hdl] at h
      cases hr : raceScanStop (now + D) evs with
      | timer =>
        rw [hr] at h
        have hτ : now + D = τ := AwaitResult.success.inj h
        refine ⟨now, le_refl _, by omega, Or.inl rfl, ?_⟩
        intro τ1 ts hm
        right
        have := raceScanStop_timer_start hch hr τ1 ts hm
        omega
      | fail => rw [hr] at h; cases h
      | blocked => rw [hr] at h; cases h
      | next τ1 s1 rest1 =>
        rw [hr] at h
        obtain ⟨f1, f2, f3, f4, f5, f6⟩ := raceScanStop_next_facts hch hr
        have hinv1 : ∀ t1, some s1 = some (MotionStatus.stop t1) → τ1 = t1 := by
          intro t1 he
          have hs : s1 = MotionStatus.stop t1 := Option.some.inj he
          rw [hs] at f2
          exact f2.symm
        obtain ⟨t2, g1, g2, g3, g4⟩ := ih τ1 (some s1) rest1 τ f3 hinv1 h
        refine ⟨t2, le_trans f1 g1, g2, ?_, ?_⟩
        · right
          rcases g3 with he | hm
          · have hs : s1 = MotionStatus.stop t2 := Option.some.inj he
            subst hs
            simp only [tsOf] at f2
            rw [← f2] at f4
            exact f4
          · exact f5 _ hm
        · intro τ2 ts hm
          rcases f6 _ hm with hin | hle
          · exact g4 τ2 ts hin
          · simp only at hle
            left
            omega
    · push_neg at hstop
      rw [awaitStopGoF_succ_advance D n now last evs hstop] at h
      cases evs with
      | nil => cases h
      | cons hd rest =>
        obtain ⟨τ0, m⟩ := hd
        cases m with
        | error e => cases h
        | ok s0 =>
          rw [chrono_cons] at hch
          obtain ⟨h1, h2, h3⟩ := hch
          have hts : tsOf s0 = τ0 := h2
          have hinv1 : ∀ t1, some s0 = some (MotionStatus.stop t1) → τ0 = t1 := by
            intro t1 he
            have hs : s0 = MotionStatus.stop t1 := Option.some.inj he
            rw [hs] at hts
            exact hts.symm
          obtain ⟨t2, g1, g2, g3, g4⟩ := ih τ0 (some s0) rest τ h3 hinv1 h
          refine ⟨t2, le_trans h1 g1, g2, ?_, ?_⟩
          · right
            rcases g3 with he | hm
            · have hs : s0 = MotionStatus.stop t2 := Option.some.inj he
              subst hs
              simp only [tsOf] at hts
              rw [← hts]
              exact List.mem_cons_self _ _
            · exact List.mem_cons_of_mem _ hm
          · intro τ2 ts hm
            rcases List.mem_cons.1 hm with heq | hm2
            · have hfst : τ2 = τ0 := congrArg Prod.fst heq
              left
              omega
            · exact g4 τ2 ts hm2

/-- C1: `await_stop(D)` with `D > 0`, called while the last known status
(the last element of the drained backlog) is a Start, returns success only
after a Stop has been observed on the event trace, only at a time `τ` with
at least D elapsed from the timestamp `t` carried by that Stop itself
(`t + D ≤ τ`), and only when no Start event arrived strictly inside the
window `(t, t + D)` — a Start inside the window forces the stability clock
to restart from a later Stop. -/
theorem await_stop_success_requires_stable_stop (D now t0 τ : Nat)
    (backlog : List MotionStatus) (evs : List Ev) (hD : 0 < D)
    (hlast : backlog.getLast? = some (MotionStatus.start t0))
    (hch : Chrono now evs)
    (hsucc : awaitStop D now backlog evs = AwaitResult.success τ) :
    ∃ t, (t, Except.ok (MotionStatus.stop t)) ∈ evs ∧ t + D ≤ τ ∧
      (∀ τ1 ts, (τ1, Except.ok (MotionStatus.start ts)) ∈ evs →
        τ1 ≤ t ∨ t + D ≤ τ1) := by
  unfold awaitStop at hsucc
  rw [hlast] at hsucc
  obtain ⟨t, g1, g2, g3, g4⟩ :=
    awaitStopGoF_success_aux hD (evs.length + 1) now
      (some (MotionStatus.start t0)) evs τ hch
      (by intro t1 he; simp at he) hsucc
  rcases g3 with he | hm
  · simp at he
  · exact ⟨t, hm, g2, g4⟩

/-- Witness for C1 at a concrete input: backlog ends in `Start 0`, one
`Stop 1` arrives, D = 2; the call succeeds at time 3 = 1 + 2, and the
conclusion exhibits the Stop. -/
theorem await_stop_success_requires_stable_stop_witness :
    ∃ t, (t, Except.ok (MotionStatus.stop t)) ∈
        ([(1, Except.ok (MotionStatus.stop 1))] : List Ev) ∧ t + 2 ≤ 3 ∧
      (∀ τ1 ts, (τ1, Except.ok (MotionStatus.start ts)) ∈
          ([(1, Except.ok (MotionStatus.stop 1))] : List Ev) → τ1 ≤ t ∨ t + 2 ≤ τ1) :=
  await_stop_success_requires_stable_stop 2 0 0 3 [MotionStatus.start 0]
    [(1, Except.ok (MotionStatus.stop 1))] (by decide) rfl (by decide) (by decide)

/-- Unfolding lemma: with zero duration, the Start state of the
`await_start` loop returns success immediately. -/
theorem awaitStartGoF_zero_start (f now t : Nat) (evs : List Ev) :
    awaitStartGoF 0 (f + 1) now (some (MotionStatus.start t)) evs =
      AwaitResult.success now := rfl

/-- Unfolding lemma for the non-Start states of the `await_start` loop. -/
theorem awaitStartGoF_succ_advance (D n now : Nat) (last : Option MotionStatus)
    (evs : List Ev) (hlast : ∀ t, last ≠ some (MotionStatus.start t)) :
    awaitStartGoF D (n + 1) now last evs =
      match evs with
      | [] => AwaitResult.pending
      | (_, Except.error _) :: _ => AwaitResult.failure
      | (τ, Except.ok s) :: rest => awaitStartGoF D n τ (some s) rest := by
  rcases last with _ | s
  · rfl
  · rcases s with t | t | t
    · exact absurd rfl (hlast t)
    · rfl
    · rfl

/-- Events that the `await_start(0)` loop merely consumes: an Ok status
that is not a Start. -/
def nonStartOk : Ev → Bool
  | (_, Except.ok (MotionStatus.start _)) => false
  | (_, Except.ok _) => true
  | (_, Except.error _) => false

/-- Walking lemma for `await_start(0)`: from a non-Start state, with a
stretch of non-Start Ok events followed by a Start arriving at `τ`, the
loop returns success exactly at `τ` (given enough fuel). -/
theorem awaitStartGoF_zero_walk :
    ∀ (pre : List Ev) (fuel now τ ts : Nat) (last : Option MotionStatus)
      (post : List Ev),
      (∀ t, last ≠ some (MotionStatus.start t)) →
      (∀ x ∈ pre, nonStartOk x = true) →
      pre.length + 2 ≤ fuel →
      awaitStartGoF 0 fuel now last
          (pre ++ (τ, Except.ok (MotionStatus.start ts)) :: post) =
        AwaitResult.success τ := by
  intro pre
  induction pre with
  | nil =>
    intro fuel now τ ts last post hlast _ hfuel
    match fuel, hfuel with
    | f + 1, hf =>
      rw [List.nil_append, awaitStartGoF_succ_advance 0 f now last _ hlast]
      have hf2 : 1 ≤ f := by simp only [List.length_nil] at hf; omega
      match f, hf2 with
      | f1 + 1, _ =>
        exact awaitStartGoF_zero_start f1 τ ts post
  | cons x pre1 ih =>
    intro fuel now τ ts last post hlast hpre hfuel
    obtain ⟨τ0, m⟩ := x
    have hx := hpre (τ0, m) (by simp)
    match fuel, hfuel with
    | f + 1, hf =>
      rw [List.cons_append, awaitStartGoF_succ_advance 0 f now last _ hlast]
      cases m with
      | error e => simp [nonStartOk] at hx
      | ok s0 =>
        cases s0 with
        | start t0 => simp [nonStartOk] at hx
        | stop t0 =>
          exact ih f τ0 τ ts (some (MotionStatus.stop t0)) post
            (by intro t he; cases he)
            (fun y hy => hpre y (List.mem_cons_of_mem _ hy))
            (by simp only [List.length_cons] at hf; omega)
        | noChange t0 =>
          exact ih f τ0 τ ts (some (MotionStatus.noChange t0)) post
            (by intro t he; cases he)
            (fun y hy => hpre y (List.mem_cons_of_mem _ hy))
            (by simp only [List.length_cons] at hf; omega)

/-- C4 counterexample: the drained backlog contains `Start 0` (so a Start
status has been observed in the past), but it is not the backlog's last
element; with no further events, `await_start(0)` does not return success —
it keeps waiting (pending), instead of returning immediately as the claim
requires. -/
theorem await_start_zero_ignores_backlog_interior :
    awaitStart 0 5 [MotionStatus.start 0, MotionStatus.stop 1] [] =
      AwaitResult.pending := rfl

/-- C4 (amended): `await_start(0)` returns success immediately — at the call
instant, regardless of any future events — exactly in the case that the
LAST element of the drained backlog is a Start; a Start earlier in the
backlog, or one recorded in `last_update` before the call, is not consulted.
Otherwise it returns success as soon as the first future Start is observed
(at that Start's arrival time), skipping non-Start statuses. -/
theorem await_start_zero_spec (now : Nat) (backlog : List MotionStatus)
    (pre post : List Ev) (τ ts : Nat) :
    (∀ t, backlog.getLast? = some (MotionStatus.start t) →
      ∀ evs : List Ev, awaitStart 0 now backlog evs = AwaitResult.success now) ∧
    ((∀ t, backlog.getLast? ≠ some (MotionStatus.start t)) →
      (∀ x ∈ pre, nonStartOk x = true) →
      awaitStart 0 now backlog
          (pre ++ (τ, Except.ok (MotionStatus.start ts)) :: post) =
        AwaitResult.success τ) := by
  constructor
  · intro t hlast evs
    unfold awaitStart
    rw [hlast]
    exact awaitStartGoF_zero_start evs.length now t evs
  · intro hlast hpre
    unfold awaitStart
    exact awaitStartGoF_zero_walk pre _ now τ ts _ post hlast hpre
      (by simp only [List.length_append, List.length_cons]; omega)

/-- Witness for C4's amended claim at concrete inputs: a backlog ending in a
Start returns success immediately with no events; an empty backlog with a
NoChange then a Start on the trace succeeds at the Start's arrival time. -/
theorem await_start_zero_spec_witness :
    awaitStart 0 9 [MotionStatus.stop 1, MotionStatus.start 4] [] =
      AwaitResult.success 9 ∧
    awaitStart 0 0 []
        [(2, Except.ok (MotionStatus.noChange 2)), (3, Except.ok (MotionStatus.start 3))] =
      AwaitResult.success 3 :=
  ⟨(await_start_zero_spec 9 [MotionStatus.stop 1, MotionStatus.start 4]
      [] [] 0 0).1 4 rfl [],
   (await_start_zero_spec 0 [] [(2, Except.ok (MotionStatus.noChange 2))]
      [] 3 3).2 (by intro t he; simp at he) (by decide)⟩

/-- Witness for C10 at concrete inputs: a reply with code 200 yields Ok, and
the payload encodings hold. -/
theorem set_floodlight_manual_spec_witness :
    set_floodlight_manual ⟨true, true, Except.ok ⟨200⟩⟩ 0 true 30 = Except.ok () ∧
    set_floodlight_manual ⟨true, true, Except.ok ⟨400⟩⟩ 0 false 30 =
      Except.error (CamError.unintelligibleReply
        "The camera did not accept the Floodlight manual state") :=
  ⟨(set_floodlight_manual_spec ⟨true, true, Except.ok ⟨200⟩⟩ 0 true 30).1.mpr
      ⟨rfl, rfl, ⟨200⟩, rfl, rfl⟩,
   (set_floodlight_manual_spec ⟨true, true, Except.ok ⟨400⟩⟩ 0 false 30).2.1
      ⟨400⟩ rfl rfl rfl (by decide)⟩

end Neolink
